import Mathlib

/-!
Shallow embedding of the M5Cardputer Wi-Fi connector firmware
(`src/CANIVETE/src/main.cpp`): the bounded top-10 network ranking structure
(`insertNetworkSorted`, `scanNetworks`) and the keyboard/connection user
interface state machine (`handleKeyboard`, `startConnection`, `loop`).

External collaborators (the radio, the display, the keyboard hardware) are
modelled as inputs: a scan is a list of raw results handed to `scanNetworks`,
a keyboard event is a `KeysState` record, the connection status sampled in
`loop` is a `WlStatus` value.  Calls to `WiFi.begin` are recorded in the
`beginCalls` field of the state so that theorems can speak about which
connection attempts were issued and with which credentials.
-/

namespace Cardputer

/-- Constant `MAX_NETWORKS` from the source: at most 10 networks are kept. -/
def MAX_NETWORKS : Nat := 10

/-- Structure `NetworkInfo` from the source: name, signal strength (dBm) and encryption type. -/
structure NetworkInfo where
  ssid : List Char
  rssi : Int
  encType : Nat
  deriving DecidableEq, Repr

/-- Constant `WIFI_AUTH_OPEN` from the ESP32 SDK (numeric value 0). -/
def WIFI_AUTH_OPEN : Nat := 0

/-- Enumeration `UiState` from the source. -/
inductive UiState
  | UI_NO_NETWORKS
  | UI_SELECT_NETWORK
  | UI_ENTER_PASSWORD
  | UI_CONNECTING
  | UI_CONNECTED
  | UI_CONNECT_FAILED
  deriving DecidableEq, Repr

/-- The `wl_status_t` values distinguished by `loop` (everything the source does
not test explicitly behaves as "pending"). -/
inductive WlStatus
  | WL_IDLE_STATUS
  | WL_NO_SSID_AVAIL
  | WL_SCAN_COMPLETED
  | WL_CONNECTED
  | WL_CONNECT_FAILED
  | WL_CONNECTION_LOST
  | WL_DISCONNECTED
  deriving DecidableEq, Repr

/-- The global mutable state of the firmware: `g_networks`/`g_networkCount`
(as a list whose length is the count), `g_selectedIndex`, `g_selectedSsid`,
`g_selectedIsOpen`, `g_password`, `g_needRedraw`, `g_uiState`; plus the
record of `WiFi.begin` calls issued so far (ssid, optional password). -/
structure SysState where
  networks : List NetworkInfo
  selectedIndex : Int
  selectedSsid : List Char
  selectedIsOpen : Bool
  password : List Char
  needRedraw : Bool
  uiState : UiState
  beginCalls : List (List Char × Option (List Char))
  deriving DecidableEq, Repr

/-- Default entry used when the source would read an array slot that the
shallow embedding represents by an out-of-range access. -/
def dfltNet : NetworkInfo := ⟨[], 0, 0⟩

/-- The rssi of the weakest (last) held entry, `g_networks[g_networkCount-1].rssi`. -/
def weakestRssi (nets : List NetworkInfo) : Int :=
  (nets.getLastD dfltNet).rssi

/-- The insertion-position scan of `insertNetworkSorted`: the first index whose
held rssi is strictly below the new one; the current length if none is. -/
def insertPos (rssi : Int) : List NetworkInfo → Nat
  | [] => 0
  | n :: rest => if rssi > n.rssi then 0 else insertPos rssi rest + 1

/-- Function `insertNetworkSorted(ssid, rssi, encType)` acting on the held list:
if full and not better than the weakest, no mutation; otherwise insert at
`insertPos` (shifting the tail down, the slot past `MAX_NETWORKS - 1`
falling off) and cap the length at `MAX_NETWORKS`. -/
def insertNetworkSorted (nets : List NetworkInfo) (ssid : List Char)
    (rssi : Int) (encType : Nat) : List NetworkInfo :=
  if nets.length = MAX_NETWORKS ∧ rssi ≤ weakestRssi nets then
    nets
  else
    let pos := insertPos rssi nets
    (nets.take pos ++ ⟨ssid, rssi, encType⟩ :: nets.drop pos).take MAX_NETWORKS

/-- One raw scan result as returned by `WiFi.SSID/RSSI/encryptionType`. -/
structure ScanResult where
  ssid : List Char
  rssi : Int
  encType : Nat
  deriving DecidableEq, Repr

/-- The insertion loop of `scanNetworks`: every result with a non-empty name
is offered to `insertNetworkSorted`, hidden (empty-name) ones are skipped. -/
def buildRanked (results : List ScanResult) : List NetworkInfo :=
  results.foldl
    (fun acc r =>
      if r.ssid.length = 0 then acc
      else insertNetworkSorted acc r.ssid r.rssi r.encType) []

/-- Function `scanNetworks()`, with the raw radio answer passed in as `results`
(`WiFi.scanNetworks() <= 0` is the empty list). -/
def scanNetworks (results : List ScanResult) (s : SysState) : SysState :=
  if results.isEmpty then
    { s with networks := [], selectedIndex := 0,
             uiState := .UI_NO_NETWORKS, needRedraw := true }
  else
    let nets := buildRanked results
    if nets.length = 0 then
      { s with networks := nets, selectedIndex := 0,
               uiState := .UI_NO_NETWORKS, needRedraw := true }
    else
      { s with networks := nets, selectedIndex := 0,
               uiState := .UI_SELECT_NETWORK, needRedraw := true }

/-- The keyboard record `Keyboard_Class::KeysState` as used by the source: the typed characters
plus the `enter` and `del` special keys. -/
structure KeysState where
  word : List Char
  enter : Bool
  del : Bool
  deriving DecidableEq, Repr

/-- The scan of `ks.word` for the global rescan shortcut `'r'`/`'R'`. -/
def wordHasRescan (w : List Char) : Bool :=
  w.any (fun c => c = 'r' || c = 'R')

/-- The scan of `ks.word` for the back shortcut `'q'`/`'Q'`. -/
def wordHasBack (w : List Char) : Bool :=
  w.any (fun c => c = 'q' || c = 'Q')

/-- One character of the W/S navigation loop in state `UI_SELECT_NETWORK`:
updates the pair (selection index, redraw flag). -/
def navChar (count : Int) (st : Int × Bool) (c : Char) : Int × Bool :=
  if c = 'w' ∨ c = 'W' then
    if count > 0 then
      let i := st.1 - 1
      (if i < 0 then count - 1 else i, true)
    else st
  else if c = 's' ∨ c = 'S' then
    if count > 0 then
      let i := st.1 + 1
      (if i ≥ count then 0 else i, true)
    else st
  else st

/-- Function `startConnection()`: switch to `UI_CONNECTING`, request a redraw, and
issue `WiFi.begin` with the selected ssid — without a password for an open
network, with the current password buffer otherwise. -/
def startConnection (s : SysState) : SysState :=
  { s with uiState := .UI_CONNECTING, needRedraw := true,
           beginCalls := s.beginCalls ++
             [(s.selectedSsid, if s.selectedIsOpen then none else some s.password)] }

/-- The `UI_SELECT_NETWORK` arm of `handleKeyboard`: W/S navigation then
ENTER selection. -/
def handleSelect (ks : KeysState) (s : SysState) : SysState :=
  let count : Int := (s.networks.length : Int)
  let nav := ks.word.foldl (navChar count) (s.selectedIndex, s.needRedraw)
  let s1 := { s with selectedIndex := nav.1, needRedraw := nav.2 }
  if ks.enter ∧ s1.networks.length > 0 then
    let sel := s1.networks.getD s1.selectedIndex.toNat dfltNet
    { s1 with selectedSsid := sel.ssid,
              selectedIsOpen := decide (sel.encType = WIFI_AUTH_OPEN),
              password := [],
              uiState := .UI_ENTER_PASSWORD,
              needRedraw := true }
  else s1

/-- The `UI_ENTER_PASSWORD` arm of `handleKeyboard`: Q/q goes back, ENTER
connects (directly for an open network), characters are appended to the
password and DEL removes the last one for a protected network. -/
def handleEnterPassword (ks : KeysState) (s : SysState) : SysState :=
  if wordHasBack ks.word then
    { s with uiState := .UI_SELECT_NETWORK, password := [], needRedraw := true }
  else if s.selectedIsOpen then
    if ks.enter then startConnection s else s
  else
    let typed := ks.word.filter (fun c => ¬ (c = 'q' ∨ c = 'Q'))
    let s1 :=
      if typed.isEmpty then s
      else { s with password := s.password ++ typed, needRedraw := true }
    let s2 :=
      if ks.del ∧ s1.password.length > 0 then
        { s1 with password := s1.password.dropLast, needRedraw := true }
      else s1
    if ks.enter then startConnection s2 else s2

/-- Function `handleKeyboard()`.  Here `changed`/`pressed` model
`M5Cardputer.Keyboard.isChange()`/`isPressed()`; `scanResults` is what the
radio would answer should the rescan shortcut fire. -/
def handleKeyboard (changed pressed : Bool) (ks : KeysState)
    (scanResults : List ScanResult) (s : SysState) : SysState :=
  if ¬ changed then s
  else if ¬ pressed then s
  else if wordHasRescan ks.word then
    scanNetworks scanResults s
  else
    match s.uiState with
    | .UI_NO_NETWORKS => s
    | .UI_SELECT_NETWORK => handleSelect ks s
    | .UI_ENTER_PASSWORD => handleEnterPassword ks s
    | .UI_CONNECTING => s
    | .UI_CONNECTED => s
    | .UI_CONNECT_FAILED => s

/-- The connection-status sampling block of `loop()`: while `UI_CONNECTING`,
`WL_CONNECTED` moves to `UI_CONNECTED`, `WL_CONNECT_FAILED`/`WL_NO_SSID_AVAIL`
move to `UI_CONNECT_FAILED`, anything else leaves the state alone. -/
def pollConnection (st : WlStatus) (s : SysState) : SysState :=
  if s.uiState = .UI_CONNECTING then
    if st = .WL_CONNECTED then
      { s with uiState := .UI_CONNECTED, needRedraw := true }
    else if st = .WL_CONNECT_FAILED ∨ st = .WL_NO_SSID_AVAIL then
      { s with uiState := .UI_CONNECT_FAILED, needRedraw := true }
    else s
  else s

/-- Function `updateDisplayIfNeeded()`: the drawing itself is external, its only
effect on the machine state is clearing the dirty flag. -/
def updateDisplayIfNeeded (s : SysState) : SysState :=
  if s.needRedraw then { s with needRedraw := false } else s

/-- The environment-supplied inputs of one `loop()` iteration. -/
structure TickInput where
  kbChanged : Bool
  kbPressed : Bool
  keys : KeysState
  scanResults : List ScanResult
  wifiStatus : WlStatus
  deriving DecidableEq, Repr

/-- One `loop()` iteration: keyboard handling, then connection polling,
then the display update. -/
def loopTick (inp : TickInput) (s : SysState) : SysState :=
  updateDisplayIfNeeded
    (pollConnection inp.wifiStatus
      (handleKeyboard inp.kbChanged inp.kbPressed inp.keys inp.scanResults s))

/-- The global state right after C++ static initialisation. -/
def initState : SysState :=
  ⟨[], 0, [], false, [], true, .UI_NO_NETWORKS, []⟩

/-- Function `setup()`: initial scan from the freshly initialised globals. -/
def boot (results : List ScanResult) : SysState :=
  scanNetworks results initState

/-- Running the main loop over a list of per-tick environment inputs. -/
def runTicks (s : SysState) (inputs : List TickInput) : SysState :=
  inputs.foldl (fun t i => loopTick i t) s

/-- A status `loop()` treats as neither success nor failure: the machine
keeps waiting. -/
def pendingStatus (st : WlStatus) : Prop :=
  st ≠ .WL_CONNECTED ∧ st ≠ .WL_CONNECT_FAILED ∧ st ≠ .WL_NO_SSID_AVAIL

instance (st : WlStatus) : Decidable (pendingStatus st) := by
  unfold pendingStatus
  infer_instance

/-- One simulated keyboard press of the `'s'` (down) key. -/
def pressDown (results : List ScanResult) (s : SysState) : SysState :=
  handleKeyboard true true ⟨['s'], false, false⟩ results s

/-- One simulated keyboard press of the `'w'` (up) key. -/
def pressUp (results : List ScanResult) (s : SysState) : SysState :=
  handleKeyboard true true ⟨['w'], false, false⟩ results s

/-- A concrete state in the middle of a connection attempt. -/
def cexConnState : SysState :=
  ⟨[⟨['x'], -40, 3⟩], 0, ['x'], false, ['p'], false, .UI_CONNECTING, []⟩

/-- A tick whose environment reports a successful association. -/
def cexTickConnOk : TickInput := ⟨false, false, ⟨[], false, false⟩, [], .WL_CONNECTED⟩

/-- A tick whose environment reports a failed association. -/
def cexTickConnFail : TickInput :=
  ⟨false, false, ⟨[], false, false⟩, [], .WL_CONNECT_FAILED⟩

/-- A tick with a keypress that is not the rescan key and a still-pending
connection status. -/
def cexTickPending : TickInput :=
  ⟨true, true, ⟨['x'], false, false⟩, [], .WL_DISCONNECTED⟩

/-- A concrete state entering the password of a protected network. -/
def cexPwState : SysState :=
  ⟨[⟨['x'], -40, 3⟩], 0, ['x'], false, [], false, .UI_ENTER_PASSWORD, []⟩

/-- A concrete state on the password screen of an open network. -/
def cexOpenState : SysState :=
  ⟨[⟨['x'], -40, 0⟩], 0, ['x'], true, [], false, .UI_ENTER_PASSWORD, []⟩

/-- A concrete state selecting among three networks. -/
def cexSelState : SysState :=
  ⟨[⟨['a'], -40, 3⟩, ⟨['b'], -50, 0⟩, ⟨['c'], -60, 1⟩], 0, [], false, [],
   false, .UI_SELECT_NETWORK, []⟩

/-- A character that is none of the intercepted shortcut keys: the rescan
characters `'r'`/`'R'` and the back characters `'q'`/`'Q'`. -/
def cleanChar (c : Char) : Prop :=
  c ≠ 'r' ∧ c ≠ 'R' ∧ c ≠ 'q' ∧ c ≠ 'Q'

/-- The password buffer holds only non-shortcut characters. -/
def cleanPassword (s : SysState) : Prop :=
  ∀ c ∈ s.password, cleanChar c

/-- A sequence of raw `offer` calls (`insertNetworkSorted`) starting from the
reset (empty) set, without the hidden-name filtering done by `scanNetworks`. -/
def offerAll (calls : List ScanResult) : List NetworkInfo :=
  calls.foldl (fun acc c => insertNetworkSorted acc c.ssid c.rssi c.encType) []

/-- The spec's ordering invariant, on adjacent pairs: each held entry is at
least as strong as the next one. -/
def rssiSorted : List NetworkInfo → Bool
  | [] => true
  | [_] => true
  | a :: b :: rest => decide (b.rssi ≤ a.rssi) && rssiSorted (b :: rest)

/-- A concrete full (capacity 10) sorted set, for evaluating capacity
behaviour on explicit inputs. -/
def cexNets : List NetworkInfo :=
  [⟨['a'], 0, 0⟩, ⟨['b'], -1, 0⟩, ⟨['c'], -2, 0⟩, ⟨['d'], -3, 0⟩,
   ⟨['e'], -4, 0⟩, ⟨['f'], -5, 0⟩, ⟨['g'], -6, 0⟩, ⟨['h'], -7, 0⟩,
   ⟨['i'], -8, 0⟩, ⟨['j'], -9, 0⟩]

/-- A concrete sorted set holding two entries of strength −5, for evaluating
tie-breaking on explicit inputs. -/
def cexTie : List NetworkInfo :=
  [⟨['A'], -3, 0⟩, ⟨['B'], -5, 0⟩, ⟨['C'], -5, 0⟩, ⟨['D'], -8, 0⟩]

/-- A concrete state for exercising the rescan shortcut and the scan
outcome split on explicit inputs. -/
def cex4State : SysState :=
  ⟨[⟨['o'], -33, 0⟩], 0, ['o'], true, [], false, .UI_CONNECTED, []⟩

/-- A concrete scan answer holding one hidden and one visible network. -/
def cex4Results : List ScanResult :=
  [⟨[], -20, 3⟩, ⟨['N'], -42, 0⟩]

/-- The classic ordered insertion that `insertNetworkSorted` performs before
capping the length: place `obs` right before the first strictly weaker entry. -/
def insertOrdered (obs : NetworkInfo) : List NetworkInfo → List NetworkInfo
  | [] => [obs]
  | n :: rest =>
    if obs.rssi > n.rssi then obs :: n :: rest else n :: insertOrdered obs rest

lemma insertOrdered_length (obs : NetworkInfo) (l : List NetworkInfo) :
    (insertOrdered obs l).length = l.length + 1 := by
  induction l with
  | nil => rfl
  | cons n rest ih =>
    by_cases h : obs.rssi > n.rssi <;> simp [insertOrdered, h, ih]

lemma takeDrop_insertPos (ssid : List Char) (rssi : Int) (encType : Nat)
    (nets : List NetworkInfo) :
    nets.take (insertPos rssi nets) ++
        (⟨ssid, rssi, encType⟩ : NetworkInfo) :: nets.drop (insertPos rssi nets)
      = insertOrdered ⟨ssid, rssi, encType⟩ nets := by
  induction nets with
  | nil => rfl
  | cons n rest ih =>
    by_cases h : rssi > n.rssi
    · simp [insertPos, insertOrdered, h]
    · simp [insertPos, insertOrdered, h, List.take_succ_cons, List.drop_succ_cons, ih]

lemma insertNetworkSorted_eq (nets : List NetworkInfo) (ssid : List Char)
    (rssi : Int) (encType : Nat) :
    insertNetworkSorted nets ssid rssi encType =
      if nets.length = MAX_NETWORKS ∧ rssi ≤ weakestRssi nets then nets
      else (insertOrdered ⟨ssid, rssi, encType⟩ nets).take MAX_NETWORKS := by
  unfold insertNetworkSorted
  split
  · rfl
  · rw [← takeDrop_insertPos]

lemma rssiSorted_cons_cons (a b : NetworkInfo) (l : List NetworkInfo) :
    rssiSorted (a :: b :: l) = true ↔ b.rssi ≤ a.rssi ∧ rssiSorted (b :: l) = true := by
  simp [rssiSorted]

lemma rssiSorted_tail (a : NetworkInfo) (l : List NetworkInfo)
    (h : rssiSorted (a :: l) = true) : rssiSorted l = true := by
  cases l with
  | nil => rfl
  | cons b t => exact ((rssiSorted_cons_cons a b t).mp h).2

lemma rssiSorted_cons' (a : NetworkInfo) (l : List NetworkInfo) :
    rssiSorted (a :: l) = true ↔
      (∀ y ∈ l.head?, y.rssi ≤ a.rssi) ∧ rssiSorted l = true := by
  cases l with
  | nil => simp [rssiSorted]
  | cons b t => simp [rssiSorted_cons_cons]

lemma insertOrdered_head? (obs : NetworkInfo) (l : List NetworkInfo) :
    (insertOrdered obs l).head? = some obs ∨ (insertOrdered obs l).head? = l.head? := by
  cases l with
  | nil => exact Or.inl rfl
  | cons n rest =>
    by_cases h : obs.rssi > n.rssi
    · exact Or.inl (by simp [insertOrdered, h])
    · exact Or.inr (by simp [insertOrdered, h])

lemma insertOrdered_sorted (obs : NetworkInfo) (l : List NetworkInfo)
    (h : rssiSorted l = true) : rssiSorted (insertOrdered obs l) = true := by
  induction l with
  | nil => rfl
  | cons n rest ih =>
    by_cases hgt : obs.rssi > n.rssi
    · rw [insertOrdered, if_pos hgt]
      exact (rssiSorted_cons_cons obs n rest).mpr ⟨le_of_lt hgt, h⟩
    · rw [insertOrdered, if_neg hgt]
      have hrest := rssiSorted_tail n rest h
      refine (rssiSorted_cons' n (insertOrdered obs rest)).mpr ⟨?_, ih hrest⟩
      intro y hy
      rcases insertOrdered_head? obs rest with hh | hh
      · rw [hh] at hy
        simp only [Option.mem_def, Option.some_inj] at hy
        subst hy
        exact le_of_not_gt hgt
      · rw [hh] at hy
        exact ((rssiSorted_cons' n rest).mp h).1 y hy

lemma rssiSorted_take (n : Nat) (l : List NetworkInfo)
    (h : rssiSorted l = true) : rssiSorted (l.take n) = true := by
  induction l generalizing n with
  | nil => simp [rssiSorted]
  | cons a rest ih =>
    cases n with
    | zero => rfl
    | succ m =>
      rw [List.take_succ_cons]
      refine (rssiSorted_cons' a (rest.take m)).mpr
        ⟨?_, ih m (rssiSorted_tail a rest h)⟩
      intro y hy
      rw [List.head?_take] at hy
      by_cases hm : m = 0
      · simp [hm] at hy
      · rw [if_neg hm] at hy
        exact ((rssiSorted_cons' a rest).mp h).1 y hy

lemma insertNetworkSorted_length_le (nets : List NetworkInfo) (ssid : List Char)
    (rssi : Int) (encType : Nat) (h : nets.length ≤ MAX_NETWORKS) :
    (insertNetworkSorted nets ssid rssi encType).length ≤ MAX_NETWORKS := by
  rw [insertNetworkSorted_eq]
  split
  · exact h
  · rw [List.length_take]
    exact min_le_left _ _

lemma insertNetworkSorted_sorted (nets : List NetworkInfo) (ssid : List Char)
    (rssi : Int) (encType : Nat) (h : rssiSorted nets = true) :
    rssiSorted (insertNetworkSorted nets ssid rssi encType) = true := by
  rw [insertNetworkSorted_eq]
  split
  · exact h
  · exact rssiSorted_take _ _ (insertOrdered_sorted _ _ h)

lemma offer_foldl_inv (calls : List ScanResult) :
    ∀ acc : List NetworkInfo, acc.length ≤ MAX_NETWORKS → rssiSorted acc = true →
      (calls.foldl (fun acc c => insertNetworkSorted acc c.ssid c.rssi c.encType)
          acc).length ≤ MAX_NETWORKS ∧
      rssiSorted
        (calls.foldl (fun acc c => insertNetworkSorted acc c.ssid c.rssi c.encType)
          acc) = true := by
  induction calls with
  | nil => exact fun acc h1 h2 => ⟨h1, h2⟩
  | cons c rest ih =>
    intro acc h1 h2
    exact ih _ (insertNetworkSorted_length_le _ _ _ _ h1)
      (insertNetworkSorted_sorted _ _ _ _ h2)

lemma mem_take_insertPos (rssi : Int) :
    ∀ (l : List NetworkInfo), ∀ x ∈ l.take (insertPos rssi l), rssi ≤ x.rssi := by
  intro l
  induction l with
  | nil => simp
  | cons n rest ih =>
    by_cases h : rssi > n.rssi
    · simp [insertPos, h]
    · rw [insertPos, if_neg h, List.take_succ_cons]
      intro x hx
      rcases List.mem_cons.mp hx with rfl | hx'
      · exact le_of_not_gt h
      · exact ih x hx'

lemma getD_insertPos (rssi : Int) :
    ∀ (l : List NetworkInfo), insertPos rssi l < l.length →
      (l.getD (insertPos rssi l) dfltNet).rssi < rssi := by
  intro l
  induction l with
  | nil => intro h; simp [insertPos] at h
  | cons n rest ih =>
    by_cases hgt : rssi > n.rssi
    · intro _
      simp [insertPos, hgt]
    · intro h
      rw [insertPos, if_neg hgt] at h ⊢
      rw [List.getD_cons_succ]
      exact ih (by simp only [List.length_cons] at h; exact Nat.lt_of_succ_lt_succ h)

lemma sorted_head_bound :
    ∀ (n : NetworkInfo) (rest : List NetworkInfo), rssiSorted (n :: rest) = true →
      ∀ x ∈ rest, x.rssi ≤ n.rssi := by
  intro n rest
  induction rest generalizing n with
  | nil => simp
  | cons m t ih =>
    intro h x hx
    obtain ⟨hmn, hmt⟩ := (rssiSorted_cons_cons n m t).mp h
    rcases List.mem_cons.mp hx with rfl | hx'
    · exact hmn
    · exact le_trans (ih m hmt x hx') hmn

lemma drop_insertPos (rssi : Int) :
    ∀ (l : List NetworkInfo), rssiSorted l = true →
      ∀ x ∈ l.drop (insertPos rssi l), x.rssi < rssi := by
  intro l
  induction l with
  | nil => simp
  | cons n rest ih =>
    intro hs x hx
    by_cases hgt : rssi > n.rssi
    · rw [insertPos, if_pos hgt, List.drop_zero] at hx
      rcases List.mem_cons.mp hx with rfl | hx'
      · exact hgt
      · exact lt_of_le_of_lt (sorted_head_bound n rest hs x hx') hgt
    · rw [insertPos, if_neg hgt, List.drop_succ_cons] at hx
      exact ih (rssiSorted_tail n rest hs) x hx

lemma getLastD_mem (l : List NetworkInfo) (d : NetworkInfo) (h : l ≠ []) :
    l.getLastD d ∈ l := by
  rw [List.getLastD_eq_getLast? d l, List.getLast?_eq_getLast l h]
  exact List.getLast_mem h

lemma getLast?_eq_getLastD (l : List NetworkInfo) (h : l ≠ []) :
    l.getLast? = some (l.getLastD dfltNet) := by
  rw [List.getLastD_eq_getLast? dfltNet l, List.getLast?_eq_getLast l h]
  rfl

lemma sorted_last_min :
    ∀ (l : List NetworkInfo), rssiSorted l = true →
      ∀ x ∈ l, weakestRssi l ≤ x.rssi := by
  intro l
  induction l with
  | nil => simp
  | cons n rest ih =>
    intro hs x hx
    cases rest with
    | nil =>
      rcases List.mem_cons.mp hx with rfl | hx'
      · exact le_refl _
      · simp at hx'
    | cons m t =>
      have hw : weakestRssi (n :: m :: t) = weakestRssi (m :: t) := rfl
      rcases List.mem_cons.mp hx with rfl | hx'
      · rw [hw]
        exact sorted_head_bound x (m :: t) hs _ (getLastD_mem (m :: t) dfltNet (by simp))
      · rw [hw]
        exact ih (rssiSorted_tail n (m :: t) hs) x hx'

lemma insertOrdered_getLast? (obs w : NetworkInfo) :
    ∀ (l : List NetworkInfo), l.getLast? = some w → w.rssi < obs.rssi →
      (insertOrdered obs l).getLast? = some w := by
  intro l
  induction l with
  | nil => intro h _; simp at h
  | cons x rest ih =>
    intro h hlt
    cases rest with
    | nil =>
      simp only [List.getLast?_singleton, Option.some_inj] at h
      subst h
      rw [insertOrdered, if_pos hlt]
      rfl
    | cons y t =>
      rw [List.getLast?_cons_cons] at h
      by_cases hgt : obs.rssi > x.rssi
      · rw [insertOrdered, if_pos hgt, List.getLast?_cons_cons, List.getLast?_cons_cons]
        exact h
      · rw [insertOrdered, if_neg hgt]
        have hrec := ih h hlt
        rcases hE : insertOrdered obs (y :: t) with _ | ⟨z, m⟩
        · have hL := insertOrdered_length obs (y :: t)
          rw [hE] at hL
          simp at hL
        · rw [hE] at hrec
          rw [List.getLast?_cons_cons]
          exact hrec

lemma take_pred_append_getLast (l : List NetworkInfo) (w : NetworkInfo)
    (h : l.getLast? = some w) : l.take (l.length - 1) ++ [w] = l := by
  rw [← List.dropLast_eq_take]
  exact List.dropLast_append_getLast? w (by rw [h]; rfl)

/-- C1: every sequence of `offer()` calls (`insertNetworkSorted`), starting
from the reset (empty) set, leaves the held sequence with length at most
`MAX_NETWORKS` (10) and ordered by signal strength descending on every
adjacent pair.  The sequence of calls is universally quantified, so the
conclusion holds in particular after each call of any longer sequence
(take its prefix as `calls`). -/
theorem offer_seq_invariant (calls : List ScanResult) :
    (offerAll calls).length ≤ MAX_NETWORKS ∧ rssiSorted (offerAll calls) = true :=
  offer_foldl_inv calls [] (Nat.zero_le _) rfl

/-- C2: with the set at capacity, `offer` with strength at most the weakest
held strength mutates nothing; with strength above it, the weakest held
entry (the last one, minimal among all held entries) is evicted, the new
observation lands at its sorted position `insertPos`, and the length stays
at capacity: the result followed by the evicted entry is exactly the old
sequence with the observation inserted at `insertPos`. -/
theorem offer_at_capacity (nets : List NetworkInfo) (ssid : List Char)
    (rssi : Int) (encType : Nat)
    (hlen : nets.length = MAX_NETWORKS) (hs : rssiSorted nets = true) :
    (rssi ≤ weakestRssi nets → insertNetworkSorted nets ssid rssi encType = nets) ∧
    (weakestRssi nets < rssi →
      (∀ x ∈ nets, weakestRssi nets ≤ x.rssi) ∧
      (insertNetworkSorted nets ssid rssi encType).length = MAX_NETWORKS ∧
      insertNetworkSorted nets ssid rssi encType ++ [nets.getLastD dfltNet] =
        nets.take (insertPos rssi nets) ++
          (⟨ssid, rssi, encType⟩ : NetworkInfo) :: nets.drop (insertPos rssi nets)) := by
  have hne : nets ≠ [] := by
    intro h
    rw [h] at hlen
    exact absurd hlen (by decide)
  constructor
  · intro hle
    rw [insertNetworkSorted_eq, if_pos ⟨hlen, hle⟩]
  · intro hlt
    have hguard : ¬ (nets.length = MAX_NETWORKS ∧ rssi ≤ weakestRssi nets) :=
      fun hc => absurd hlt (not_lt.mpr hc.2)
    have hLlen : (insertOrdered (⟨ssid, rssi, encType⟩ : NetworkInfo) nets).length
        = MAX_NETWORKS + 1 := by
      rw [insertOrdered_length, hlen]
    have hlast : (insertOrdered (⟨ssid, rssi, encType⟩ : NetworkInfo) nets).getLast?
        = some (nets.getLastD dfltNet) :=
      insertOrdered_getLast? _ _ nets (getLast?_eq_getLastD nets hne) hlt
    refine ⟨sorted_last_min nets hs, ?_, ?_⟩
    · rw [insertNetworkSorted_eq, if_neg hguard, List.length_take, hLlen]
      exact Nat.min_eq_left (Nat.le_succ _)
    · rw [insertNetworkSorted_eq, if_neg hguard, takeDrop_insertPos]
      have := take_pred_append_getLast
        (insertOrdered (⟨ssid, rssi, encType⟩ : NetworkInfo) nets)
        (nets.getLastD dfltNet) hlast
      rw [hLlen] at this
      exact this

/-- C2 witness: on a concrete ten-entry set, an offer not beating the
weakest is discarded unchanged, and a stronger offer evicts the weakest,
keeps the length at 10 and sits at its sorted position. -/
theorem offer_at_capacity_witness :
    insertNetworkSorted cexNets ['Z'] (-10) 0 = cexNets ∧
    (insertNetworkSorted cexNets ['Z'] (-4) 0).length = MAX_NETWORKS ∧
    insertNetworkSorted cexNets ['Z'] (-4) 0 ++ [cexNets.getLastD dfltNet] =
      cexNets.take (insertPos (-4) cexNets) ++
        (⟨['Z'], -4, 0⟩ : NetworkInfo) :: cexNets.drop (insertPos (-4) cexNets) :=
  ⟨(offer_at_capacity cexNets ['Z'] (-10) 0 (by decide) (by decide)).1 (by decide),
   ((offer_at_capacity cexNets ['Z'] (-4) 0 (by decide) (by decide)).2 (by decide)).2.1,
   ((offer_at_capacity cexNets ['Z'] (-4) 0 (by decide) (by decide)).2 (by decide)).2.2⟩

/-- C3: `insertPos` is the first index whose held strength is strictly below
the offered strength — every entry before it is at least as strong as the
new observation, the entry at it (when it exists) is strictly weaker and,
on a sorted set, so is everything after it, so an observation tying with
held entries goes after all of them; whenever the observation is actually
placed, the set is exactly the old one with the observation inserted at
`insertPos` (truncated to capacity), so held entries are never re-ordered. -/
theorem offer_tie_stability (nets : List NetworkInfo) (ssid : List Char)
    (rssi : Int) (encType : Nat) (hs : rssiSorted nets = true) :
    (∀ x ∈ nets.take (insertPos rssi nets), rssi ≤ x.rssi) ∧
    (insertPos rssi nets < nets.length →
      (nets.getD (insertPos rssi nets) dfltNet).rssi < rssi) ∧
    (∀ x ∈ nets.drop (insertPos rssi nets), x.rssi < rssi) ∧
    (¬ (nets.length = MAX_NETWORKS ∧ rssi ≤ weakestRssi nets) →
      insertNetworkSorted nets ssid rssi encType =
        (nets.take (insertPos rssi nets) ++
          (⟨ssid, rssi, encType⟩ : NetworkInfo) ::
            nets.drop (insertPos rssi nets)).take MAX_NETWORKS) := by
  refine ⟨mem_take_insertPos rssi nets, getD_insertPos rssi nets,
    drop_insertPos rssi nets hs, ?_⟩
  intro hguard
  rw [insertNetworkSorted_eq, if_neg hguard, takeDrop_insertPos]

lemma handleKeyboard_rescan (s : SysState) (ks : KeysState)
    (results : List ScanResult) (h : wordHasRescan ks.word = true) :
    handleKeyboard true true ks results s = scanNetworks results s := by
  unfold handleKeyboard
  simp [h]

lemma buildRanked_filter (results : List ScanResult) :
    buildRanked results = buildRanked (results.filter (fun r => r.ssid.length != 0)) := by
  unfold buildRanked
  generalize [] = acc
  induction results generalizing acc with
  | nil => rfl
  | cons r rest ih =>
    by_cases h : r.ssid.length = 0
    · rw [List.filter_cons, if_neg (by simp [h]), List.foldl_cons, if_pos h]
      exact ih acc
    · rw [List.filter_cons, if_pos (by simp [h]), List.foldl_cons, List.foldl_cons,
        if_neg h]
      exact ih _

lemma insertNetworkSorted_ne_nil (nets : List NetworkInfo) (ssid : List Char)
    (rssi : Int) (encType : Nat) (_h : nets.length ≤ MAX_NETWORKS) :
    insertNetworkSorted nets ssid rssi encType ≠ [] := by
  rw [insertNetworkSorted_eq]
  split
  · rename_i hg
    intro hnil
    rw [hnil] at hg
    exact absurd hg.1 (by decide)
  · intro hnil
    have hl := congrArg List.length hnil
    rw [List.length_take, insertOrdered_length] at hl
    simp [MAX_NETWORKS] at hl

lemma buildRanked_ne_nil (results : List ScanResult)
    (h : results.filter (fun r => r.ssid.length != 0) ≠ []) :
    buildRanked results ≠ [] := by
  have key : ∀ (rs : List ScanResult) (acc : List NetworkInfo),
      acc.length ≤ MAX_NETWORKS →
      (acc ≠ [] ∨ rs.filter (fun r => r.ssid.length != 0) ≠ []) →
      rssiSorted acc = true →
      rs.foldl (fun acc r =>
        if r.ssid.length = 0 then acc
        else insertNetworkSorted acc r.ssid r.rssi r.encType) acc ≠ [] := by
    intro rs
    induction rs with
    | nil =>
      intro acc _ hne _
      rcases hne with hne | hne
      · exact hne
      · exact absurd rfl hne
    | cons r rest ih =>
      intro acc hlen hne hs
      by_cases h0 : r.ssid.length = 0
      · simp only [List.foldl_cons, if_pos h0]
        refine ih acc hlen ?_ hs
        rcases hne with hne | hne
        · exact Or.inl hne
        · refine Or.inr ?_
          rw [List.filter_cons] at hne
          simpa [h0] using hne
      · simp only [List.foldl_cons, if_neg h0]
        exact ih _ (insertNetworkSorted_length_le _ _ _ _ hlen)
          (Or.inl (insertNetworkSorted_ne_nil _ _ _ _ hlen))
          (insertNetworkSorted_sorted _ _ _ _ hs)
  exact key results [] (Nat.zero_le _) (Or.inr h) rfl

lemma buildRanked_nil_of_filter_nil (results : List ScanResult)
    (h : results.filter (fun r => r.ssid.length != 0) = []) :
    buildRanked results = [] := by
  rw [buildRanked_filter, h]
  rfl

/-- C4: the rescan key is a global shortcut: whenever a delivered keyboard
event contains `'r'`/`'R'`, `handleKeyboard` performs exactly `scanNetworks`
from any state, the held set is reset and rebuilt from the fresh scan
results, and the resulting state is `UI_NO_NETWORKS` or `UI_SELECT_NETWORK`
(never a password/connection state). -/
theorem rescan_from_any_state (s : SysState) (ks : KeysState)
    (results : List ScanResult) (h : wordHasRescan ks.word = true) :
    handleKeyboard true true ks results s = scanNetworks results s ∧
    ((handleKeyboard true true ks results s).uiState = .UI_NO_NETWORKS ∨
      (handleKeyboard true true ks results s).uiState = .UI_SELECT_NETWORK) ∧
    (handleKeyboard true true ks results s).networks = buildRanked results := by
  have he := handleKeyboard_rescan s ks results h
  refine ⟨he, ?_, ?_⟩ <;> rw [he] <;> unfold scanNetworks
  · by_cases hemp : results.isEmpty
    · rw [if_pos hemp]
      exact Or.inl rfl
    · rw [if_neg hemp]
      by_cases hz : (buildRanked results).length = 0
      · rw [if_pos hz]
        exact Or.inl rfl
      · rw [if_neg hz]
        exact Or.inr rfl
  · by_cases hemp : results.isEmpty
    · rw [if_pos hemp]
      have : results = [] := List.isEmpty_iff.mp hemp
      rw [this]
      rfl
    · rw [if_neg hemp]
      by_cases hz : (buildRanked results).length = 0
      · rw [if_pos hz]
      · rw [if_neg hz]

/-- C4 witness: pressing `'r'` while connected, with one visible network in
the scan answer, rescans and lands in `UI_SELECT_NETWORK`. -/
theorem rescan_from_any_state_witness :
    handleKeyboard true true ⟨['r'], false, false⟩ cex4Results cex4State
        = scanNetworks cex4Results cex4State ∧
    ((handleKeyboard true true ⟨['r'], false, false⟩ cex4Results cex4State).uiState
        = .UI_NO_NETWORKS ∨
      (handleKeyboard true true ⟨['r'], false, false⟩ cex4Results cex4State).uiState
        = .UI_SELECT_NETWORK) ∧
    (handleKeyboard true true ⟨['r'], false, false⟩ cex4Results cex4State).networks
        = buildRanked cex4Results :=
  rescan_from_any_state cex4State ⟨['r'], false, false⟩ cex4Results (by decide)

/-- C5: hidden (empty-name) scan results are filtered out before `offer` is
called (`buildRanked` only sees the usable ones); a scan whose usable
results are empty ends in `UI_NO_NETWORKS`, and one with at least one
usable result ends in `UI_SELECT_NETWORK` with selection index 0. -/
theorem scan_hidden_filtered (results : List ScanResult) (s : SysState) :
    buildRanked results = buildRanked (results.filter (fun r => r.ssid.length != 0)) ∧
    (results.filter (fun r => r.ssid.length != 0) = [] →
      (scanNetworks results s).uiState = .UI_NO_NETWORKS) ∧
    (results.filter (fun r => r.ssid.length != 0) ≠ [] →
      (scanNetworks results s).uiState = .UI_SELECT_NETWORK ∧
      (scanNetworks results s).selectedIndex = 0) := by
  refine ⟨buildRanked_filter results, ?_, ?_⟩
  · intro hnil
    unfold scanNetworks
    by_cases hemp : results.isEmpty
    · rw [if_pos hemp]
    · rw [if_neg hemp]
      have hz : (buildRanked results).length = 0 := by
        rw [buildRanked_nil_of_filter_nil results hnil]
        rfl
      rw [if_pos hz]
  · intro hne
    have hbn : buildRanked results ≠ [] := buildRanked_ne_nil results hne
    have hemp : ¬ results.isEmpty = true := by
      intro hemp
      rw [List.isEmpty_iff.mp hemp] at hne
      exact hne rfl
    have hz : ¬ (buildRanked results).length = 0 := by
      intro hz
      exact hbn (List.length_eq_zero.mp hz)
    unfold scanNetworks
    rw [if_neg hemp, if_neg hz]
    exact ⟨rfl, rfl⟩

/-- C5 witness: a scan answer whose only entries are hidden ends in
`UI_NO_NETWORKS`; adding one named network ends in `UI_SELECT_NETWORK`
with index 0. -/
theorem scan_hidden_filtered_witness :
    (scanNetworks [⟨[], -30, 0⟩] cex4State).uiState = .UI_NO_NETWORKS ∧
    (scanNetworks [⟨[], -30, 0⟩, ⟨['N'], -42, 0⟩] cex4State).uiState
        = .UI_SELECT_NETWORK ∧
    (scanNetworks [⟨[], -30, 0⟩, ⟨['N'], -42, 0⟩] cex4State).selectedIndex = 0 :=
  ⟨(scan_hidden_filtered [⟨[], -30, 0⟩] cex4State).2.1 (by decide),
   ((scan_hidden_filtered [⟨[], -30, 0⟩, ⟨['N'], -42, 0⟩] cex4State).2.2 (by decide)).1,
   ((scan_hidden_filtered [⟨[], -30, 0⟩, ⟨['N'], -42, 0⟩] cex4State).2.2 (by decide)).2⟩

lemma updateDisplay_uiState (s : SysState) :
    (updateDisplayIfNeeded s).uiState = s.uiState := by
  unfold updateDisplayIfNeeded
  split <;> rfl

lemma handleKeyboard_connecting (ch pr : Bool) (ks : KeysState)
    (results : List ScanResult) (s : SysState)
    (hst : s.uiState = .UI_CONNECTING) (hnr : wordHasRescan ks.word = false) :
    handleKeyboard ch pr ks results s = s := by
  unfold handleKeyboard
  by_cases hch : ch
  · by_cases hpr : pr
    · simp [hch, hpr, hnr, hst]
    · simp [hch, hpr]
  · simp [hch]

lemma runTicks_connecting : ∀ (inputs : List TickInput) (s : SysState),
    s.uiState = .UI_CONNECTING →
    (∀ i ∈ inputs, wordHasRescan i.keys.word = false ∧ pendingStatus i.wifiStatus) →
    (runTicks s inputs).uiState = .UI_CONNECTING := by
  intro inputs
  induction inputs with
  | nil => exact fun s h _ => h
  | cons i rest ih =>
    intro s h hall
    have hi := hall i (List.mem_cons_self i rest)
    have hstep : (loopTick i s).uiState = .UI_CONNECTING := by
      have hk := handleKeyboard_connecting i.kbChanged i.kbPressed i.keys
        i.scanResults s h hi.1
      unfold loopTick
      rw [hk, updateDisplay_uiState]
      simp [pollConnection, h, hi.2.1, hi.2.2.1, hi.2.2.2]
    have : runTicks s (i :: rest) = runTicks (loopTick i s) rest := by
      unfold runTicks
      rw [List.foldl_cons]
    rw [this]
    exact ih (loopTick i s) hstep (fun j hj => hall j (List.mem_cons_of_mem i hj))

/-- C6: with the machine in `UI_CONNECTING` and no rescan key pressed, one
loop tick samples the status: success moves to `UI_CONNECTED`,
connect-failed or no-ssid-available moves to `UI_CONNECT_FAILED`, and any
other (pending) status leaves the machine in `UI_CONNECTING`; with pending
reports this holds over arbitrarily many consecutive ticks — no timeout
ever forces a transition. -/
theorem connecting_poll_transitions (s : SysState)
    (hst : s.uiState = .UI_CONNECTING) (inp : TickInput)
    (hnr : wordHasRescan inp.keys.word = false) :
    (inp.wifiStatus = .WL_CONNECTED →
      (loopTick inp s).uiState = .UI_CONNECTED) ∧
    ((inp.wifiStatus = .WL_CONNECT_FAILED ∨ inp.wifiStatus = .WL_NO_SSID_AVAIL) →
      (loopTick inp s).uiState = .UI_CONNECT_FAILED) ∧
    (pendingStatus inp.wifiStatus →
      (loopTick inp s).uiState = .UI_CONNECTING) ∧
    (∀ inputs : List TickInput,
      (∀ i ∈ inputs, wordHasRescan i.keys.word = false ∧ pendingStatus i.wifiStatus) →
      (runTicks s inputs).uiState = .UI_CONNECTING) := by
  have hk := handleKeyboard_connecting inp.kbChanged inp.kbPressed inp.keys
    inp.scanResults s hst hnr
  refine ⟨?_, ?_, ?_, fun inputs hall => runTicks_connecting inputs s hst hall⟩
  · intro hw
    unfold loopTick
    rw [hk, updateDisplay_uiState]
    simp [pollConnection, hst, hw]
  · intro hw
    unfold loopTick
    rw [hk, updateDisplay_uiState]
    rcases hw with hw | hw <;> simp [pollConnection, hst, hw]
  · intro hp
    unfold loopTick
    rw [hk, updateDisplay_uiState]
    simp [pollConnection, hst, hp.1, hp.2.1, hp.2.2]

/-- C6 witness: from a concrete connecting state, a success tick lands in
`UI_CONNECTED`, a failure tick in `UI_CONNECT_FAILED`, and two pending
ticks (with a non-rescan keypress) stay in `UI_CONNECTING`. -/
theorem connecting_poll_transitions_witness :
    (loopTick cexTickConnOk cexConnState).uiState = .UI_CONNECTED ∧
    (loopTick cexTickConnFail cexConnState).uiState = .UI_CONNECT_FAILED ∧
    (runTicks cexConnState [cexTickPending, cexTickPending]).uiState
        = .UI_CONNECTING :=
  ⟨(connecting_poll_transitions cexConnState (by decide) cexTickConnOk
      (by decide)).1 (by decide),
   (connecting_poll_transitions cexConnState (by decide) cexTickConnFail
      (by decide)).2.1 (Or.inl (by decide)),
   (connecting_poll_transitions cexConnState (by decide) cexTickConnOk
      (by decide)).2.2.2 [cexTickPending, cexTickPending] (by decide)⟩

lemma pw_char_append (s : SysState) (results : List ScanResult) (c : Char)
    (hst : s.uiState = .UI_ENTER_PASSWORD) (hprot : s.selectedIsOpen = false)
    (hq : c ≠ 'q') (hQ : c ≠ 'Q') (hr : c ≠ 'r') (hR : c ≠ 'R') :
    handleKeyboard true true ⟨[c], false, false⟩ results s
      = { s with password := s.password ++ [c], needRedraw := true } := by
  have h1 : wordHasRescan [c] = false := by simp [wordHasRescan, hr, hR]
  have h2 : wordHasBack [c] = false := by simp [wordHasBack, hq, hQ]
  unfold handleKeyboard handleEnterPassword
  simp [h1, h2, hst, hprot, hq, hQ]

lemma pw_del (s : SysState) (results : List ScanResult)
    (hst : s.uiState = .UI_ENTER_PASSWORD) (hprot : s.selectedIsOpen = false) :
    handleKeyboard true true ⟨[], false, true⟩ results s
      = if s.password.length > 0
        then { s with password := s.password.dropLast, needRedraw := true }
        else s := by
  unfold handleKeyboard handleEnterPassword
  simp [wordHasRescan, wordHasBack, hst, hprot]

/-- C7 counterexample: in password entry for a protected network, the typed
character `'r'` is not the KeyBack character, yet it is not appended to the
password buffer (and the machine even leaves `UI_ENTER_PASSWORD`): the
rescan shortcut intercepts it, contradicting the claim's "each CharTyped(c)
with c not the KeyBack character appends c". -/
theorem password_entry_edit_cex :
    ¬ ((handleKeyboard true true ⟨['r'], false, false⟩ [] cexPwState).password
          = cexPwState.password ++ ['r'] ∧
       (handleKeyboard true true ⟨['r'], false, false⟩ [] cexPwState).uiState
          = .UI_ENTER_PASSWORD) := by
  decide

/-- C7 amended: in password entry for a protected network, a typed
character other than the KeyBack characters (`'q'`/`'Q'`) and the rescan
characters (`'r'`/`'R'`) is appended to the password buffer with the machine
staying put, KeyDelete removes the last character when the buffer is
non-empty and leaves an empty buffer unchanged; in particular typing
`"ab"` then Delete yields buffer `"a"`. -/
theorem password_entry_edit (s : SysState) (results : List ScanResult)
    (c : Char) (hst : s.uiState = .UI_ENTER_PASSWORD)
    (hprot : s.selectedIsOpen = false)
    (hc : c ≠ 'q' ∧ c ≠ 'Q' ∧ c ≠ 'r' ∧ c ≠ 'R') :
    handleKeyboard true true ⟨[c], false, false⟩ results s
        = { s with password := s.password ++ [c], needRedraw := true } ∧
    handleKeyboard true true ⟨[], false, true⟩ results s
        = (if s.password.length > 0
           then { s with password := s.password.dropLast, needRedraw := true }
           else s) ∧
    (s.password = [] →
      (handleKeyboard true true ⟨[], false, true⟩ results
        (handleKeyboard true true ⟨['b'], false, false⟩ results
          (handleKeyboard true true ⟨['a'], false, false⟩ results s))).password
        = ['a']) := by
  refine ⟨pw_char_append s results c hst hprot hc.1 hc.2.1 hc.2.2.1 hc.2.2.2,
    pw_del s results hst hprot, ?_⟩
  intro hpw
  rw [pw_char_append s results 'a' hst hprot (by decide) (by decide) (by decide)
    (by decide)]
  rw [pw_char_append _ results 'b' (by simp [hst]) (by simp [hprot]) (by decide)
    (by decide) (by decide) (by decide)]
  rw [pw_del _ results (by simp [hst]) (by simp [hprot])]
  simp [hpw]

/-- C7 witness: on a concrete protected-network password screen with an
empty buffer, typing `'x'` appends it, and typing `"ab"` then Delete yields
buffer `"a"`. -/
theorem password_entry_edit_witness :
    handleKeyboard true true ⟨['x'], false, false⟩ [] cexPwState
        = { cexPwState with
            password := cexPwState.password ++ ['x']
            needRedraw := true } ∧
    (handleKeyboard true true ⟨[], false, true⟩ []
      (handleKeyboard true true ⟨['b'], false, false⟩ []
        (handleKeyboard true true ⟨['a'], false, false⟩ [] cexPwState))).password
      = ['a'] :=
  ⟨(password_entry_edit cexPwState [] 'x' (by decide) (by decide) (by decide)).1,
   (password_entry_edit cexPwState [] 'a' (by decide) (by decide)
      (by decide)).2.2 (by decide)⟩

/-- C8 counterexample: on the password screen of an open network, the typed
character `'r'` does change the state (the rescan shortcut fires), so
"CharTyped events have no effect on any state in that configuration" does
not hold as stated. -/
theorem open_network_confirm_cex :
    handleKeyboard true true ⟨['r'], false, false⟩ [] cexOpenState
      ≠ cexOpenState := by
  decide

/-- C8 amended: on the password screen of a selected open network,
KeyConfirm performs exactly `startConnection` — the connection attempt is
issued without a password and the machine moves to `UI_CONNECTING` — while
typed characters other than the rescan (`'r'`/`'R'`) and back (`'q'`/`'Q'`)
characters, and KeyDelete, change nothing at all. -/
theorem open_network_confirm (s : SysState) (results : List ScanResult)
    (hst : s.uiState = .UI_ENTER_PASSWORD) (hopen : s.selectedIsOpen = true) :
    (handleKeyboard true true ⟨[], true, false⟩ results s = startConnection s ∧
     (startConnection s).uiState = .UI_CONNECTING ∧
     (startConnection s).beginCalls = s.beginCalls ++ [(s.selectedSsid, none)]) ∧
    (∀ c : Char, c ≠ 'q' → c ≠ 'Q' → c ≠ 'r' → c ≠ 'R' →
      handleKeyboard true true ⟨[c], false, false⟩ results s = s) ∧
    handleKeyboard true true ⟨[], false, true⟩ results s = s := by
  refine ⟨⟨?_, rfl, ?_⟩, ?_, ?_⟩
  · unfold handleKeyboard handleEnterPassword
    simp [wordHasRescan, wordHasBack, hst, hopen]
  · unfold startConnection
    simp [hopen]
  · intro c hq hQ hr hR
    have h1 : wordHasRescan [c] = false := by simp [wordHasRescan, hr, hR]
    have h2 : wordHasBack [c] = false := by simp [wordHasBack, hq, hQ]
    unfold handleKeyboard handleEnterPassword
    simp [h1, h2, hst, hopen]
  · unfold handleKeyboard handleEnterPassword
    simp [wordHasRescan, wordHasBack, hst, hopen]

/-- C8 witness: on a concrete open-network password screen, Confirm issues
the passwordless connection attempt and moves to `UI_CONNECTING`, while a
typed `'x'` and KeyDelete change nothing. -/
theorem open_network_confirm_witness :
    handleKeyboard true true ⟨[], true, false⟩ [] cexOpenState
        = startConnection cexOpenState ∧
    (startConnection cexOpenState).uiState = .UI_CONNECTING ∧
    (startConnection cexOpenState).beginCalls
        = cexOpenState.beginCalls ++ [(cexOpenState.selectedSsid, none)] ∧
    handleKeyboard true true ⟨['x'], false, false⟩ [] cexOpenState = cexOpenState ∧
    handleKeyboard true true ⟨[], false, true⟩ [] cexOpenState = cexOpenState :=
  ⟨(open_network_confirm cexOpenState [] (by decide) (by decide)).1.1,
   (open_network_confirm cexOpenState [] (by decide) (by decide)).1.2.1,
   (open_network_confirm cexOpenState [] (by decide) (by decide)).1.2.2,
   (open_network_confirm cexOpenState [] (by decide) (by decide)).2.1 'x'
     (by decide) (by decide) (by decide) (by decide),
   (open_network_confirm cexOpenState [] (by decide) (by decide)).2.2⟩

lemma navChar_s (count : Int) (st : Int × Bool) :
    navChar count st 's'
      = if count > 0 then (if st.1 + 1 ≥ count then 0 else st.1 + 1, true)
        else st := by
  unfold navChar
  rw [if_neg (by decide), if_pos (by decide)]

lemma navChar_w (count : Int) (st : Int × Bool) :
    navChar count st 'w'
      = if count > 0 then (if st.1 - 1 < 0 then count - 1 else st.1 - 1, true)
        else st := by
  unfold navChar
  rw [if_pos (by decide)]

lemma pressDown_eq (s : SysState) (results : List ScanResult)
    (hst : s.uiState = .UI_SELECT_NETWORK) (hc : 0 < s.networks.length) :
    pressDown results s
      = { s with
          selectedIndex :=
            if s.selectedIndex + 1 ≥ (s.networks.length : Int) then 0
            else s.selectedIndex + 1
          needRedraw := true } := by
  have hcount : (0 : Int) < (s.networks.length : Int) := by exact_mod_cast hc
  unfold pressDown handleKeyboard handleSelect
  simp [wordHasRescan, hst, navChar_s, hcount]

lemma pressUp_eq (s : SysState) (results : List ScanResult)
    (hst : s.uiState = .UI_SELECT_NETWORK) (hc : 0 < s.networks.length) :
    pressUp results s
      = { s with
          selectedIndex :=
            if s.selectedIndex - 1 < 0 then (s.networks.length : Int) - 1
            else s.selectedIndex - 1
          needRedraw := true } := by
  have hcount : (0 : Int) < (s.networks.length : Int) := by exact_mod_cast hc
  unfold pressUp handleKeyboard handleSelect
  simp [wordHasRescan, hst, navChar_w, hcount]

lemma wrap_down (count j : Int) (h0 : 0 ≤ j) (h1 : j < count) :
    (if j + 1 ≥ count then 0 else j + 1) = (j + 1) % count := by
  by_cases h : j + 1 ≥ count
  · rw [if_pos h]
    have he : j + 1 = count := by omega
    rw [he, Int.emod_self]
  · rw [if_neg h]
    exact (Int.emod_eq_of_lt (by omega) (by omega)).symm

lemma wrap_up (count j : Int) (h0 : 0 ≤ j) (h1 : j < count) :
    (if j - 1 < 0 then count - 1 else j - 1) = (j - 1) % count := by
  by_cases h : j - 1 < 0
  · rw [if_pos h]
    have he : j = 0 := by omega
    subst he
    have h2 : ((0 : Int) - 1) % count = (count - 1) % count := by
      have h3 := Int.add_mul_emod_self_left (count - 1) count (-1)
      have he2 : count - 1 + count * (-1) = (0 : Int) - 1 := by ring
      rw [he2] at h3
      exact h3
    rw [h2]
    exact (Int.emod_eq_of_lt (by omega) (by omega)).symm
  · rw [if_neg h]
    exact (Int.emod_eq_of_lt (by omega) (by omega)).symm

lemma emod_sub_left (a b n : Int) : (a % n - b) % n = (a - b) % n := by
  rw [Int.sub_emod, Int.emod_emod_of_dvd a dvd_rfl, ← Int.sub_emod]

lemma pressDown_iter (s : SysState) (results : List ScanResult)
    (hst : s.uiState = .UI_SELECT_NETWORK) (hc : 0 < s.networks.length)
    (h0 : 0 ≤ s.selectedIndex)
    (h1 : s.selectedIndex < (s.networks.length : Int)) :
    ∀ n : Nat,
      ((pressDown results)^[n] s).uiState = .UI_SELECT_NETWORK ∧
      ((pressDown results)^[n] s).networks = s.networks ∧
      ((pressDown results)^[n] s).selectedIndex
        = (s.selectedIndex + n) % (s.networks.length : Int) := by
  have hcQ : (0 : Int) < (s.networks.length : Int) := by exact_mod_cast hc
  intro n
  induction n with
  | zero =>
    refine ⟨hst, rfl, ?_⟩
    simp [Int.emod_eq_of_lt h0 h1]
  | succ n ih =>
    obtain ⟨ihu, ihn, ihi⟩ := ih
    have hcount : 0 < ((pressDown results)^[n] s).networks.length := by
      rw [ihn]; exact hc
    have hj0 : 0 ≤ ((pressDown results)^[n] s).selectedIndex := by
      rw [ihi]; exact Int.emod_nonneg _ (ne_of_gt hcQ)
    have hj1 : ((pressDown results)^[n] s).selectedIndex
        < (s.networks.length : Int) := by
      rw [ihi]; exact Int.emod_lt_of_pos _ hcQ
    rw [Function.iterate_succ_apply',
      pressDown_eq ((pressDown results)^[n] s) results ihu hcount]
    refine ⟨ihu, ihn, ?_⟩
    show (if ((pressDown results)^[n] s).selectedIndex + 1
            ≥ (((pressDown results)^[n] s).networks.length : Int) then 0
          else ((pressDown results)^[n] s).selectedIndex + 1) = _
    rw [ihn, wrap_down _ _ hj0 hj1, ihi, Int.emod_add_emod]
    have he : s.selectedIndex + (n : Int) + 1 = s.selectedIndex + ((n + 1 : Nat) : Int) := by
      push_cast
      ring
    rw [he]

lemma pressUp_iter (s : SysState) (results : List ScanResult)
    (hst : s.uiState = .UI_SELECT_NETWORK) (hc : 0 < s.networks.length)
    (h0 : 0 ≤ s.selectedIndex)
    (h1 : s.selectedIndex < (s.networks.length : Int)) :
    ∀ n : Nat,
      ((pressUp results)^[n] s).uiState = .UI_SELECT_NETWORK ∧
      ((pressUp results)^[n] s).networks = s.networks ∧
      ((pressUp results)^[n] s).selectedIndex
        = (s.selectedIndex - n) % (s.networks.length : Int) := by
  have hcQ : (0 : Int) < (s.networks.length : Int) := by exact_mod_cast hc
  intro n
  induction n with
  | zero =>
    refine ⟨hst, rfl, ?_⟩
    simp [Int.emod_eq_of_lt h0 h1]
  | succ n ih =>
    obtain ⟨ihu, ihn, ihi⟩ := ih
    have hcount : 0 < ((pressUp results)^[n] s).networks.length := by
      rw [ihn]; exact hc
    have hj0 : 0 ≤ ((pressUp results)^[n] s).selectedIndex := by
      rw [ihi]; exact Int.emod_nonneg _ (ne_of_gt hcQ)
    have hj1 : ((pressUp results)^[n] s).selectedIndex
        < (s.networks.length : Int) := by
      rw [ihi]; exact Int.emod_lt_of_pos _ hcQ
    rw [Function.iterate_succ_apply',
      pressUp_eq ((pressUp results)^[n] s) results ihu hcount]
    refine ⟨ihu, ihn, ?_⟩
    show (if ((pressUp results)^[n] s).selectedIndex - 1 < 0
          then (((pressUp results)^[n] s).networks.length : Int) - 1
          else ((pressUp results)^[n] s).selectedIndex - 1) = _
    rw [ihn, wrap_up _ _ hj0 hj1, ihi, emod_sub_left]
    have he : s.selectedIndex - (n : Int) - 1 = s.selectedIndex - ((n + 1 : Nat) : Int) := by
      push_cast
      ring
    rw [he]

/-- C9: in `UI_SELECT_NETWORK` with a non-empty set and an in-range
selection index, any run of KeyDown (`'s'`) or KeyUp (`'w'`) presses keeps
the index inside `[0, count)` and the machine selecting, and exactly
`count` presses of the same key bring the index back to its starting
value. -/
theorem select_nav_wraparound (s : SysState) (results : List ScanResult)
    (hst : s.uiState = .UI_SELECT_NETWORK) (hc : 0 < s.networks.length)
    (h0 : 0 ≤ s.selectedIndex)
    (h1 : s.selectedIndex < (s.networks.length : Int)) :
    (∀ n : Nat,
      (0 ≤ ((pressDown results)^[n] s).selectedIndex ∧
        ((pressDown results)^[n] s).selectedIndex < (s.networks.length : Int) ∧
        ((pressDown results)^[n] s).uiState = .UI_SELECT_NETWORK) ∧
      (0 ≤ ((pressUp results)^[n] s).selectedIndex ∧
        ((pressUp results)^[n] s).selectedIndex < (s.networks.length : Int) ∧
        ((pressUp results)^[n] s).uiState = .UI_SELECT_NETWORK)) ∧
    ((pressDown results)^[s.networks.length] s).selectedIndex = s.selectedIndex ∧
    ((pressUp results)^[s.networks.length] s).selectedIndex = s.selectedIndex := by
  have hcQ : (0 : Int) < (s.networks.length : Int) := by exact_mod_cast hc
  refine ⟨?_, ?_, ?_⟩
  · intro n
    obtain ⟨du, dn, di⟩ := pressDown_iter s results hst hc h0 h1 n
    obtain ⟨uu, un, ui⟩ := pressUp_iter s results hst hc h0 h1 n
    exact ⟨⟨by rw [di]; exact Int.emod_nonneg _ (ne_of_gt hcQ),
            by rw [di]; exact Int.emod_lt_of_pos _ hcQ, du⟩,
           ⟨by rw [ui]; exact Int.emod_nonneg _ (ne_of_gt hcQ),
            by rw [ui]; exact Int.emod_lt_of_pos _ hcQ, uu⟩⟩
  · obtain ⟨_, _, di⟩ := pressDown_iter s results hst hc h0 h1 s.networks.length
    rw [di]
    have he : s.selectedIndex + (s.networks.length : Int)
        = s.selectedIndex + (s.networks.length : Int) * 1 := by ring
    rw [he, Int.add_mul_emod_self_left]
    exact Int.emod_eq_of_lt h0 h1
  · obtain ⟨_, _, ui⟩ := pressUp_iter s results hst hc h0 h1 s.networks.length
    rw [ui]
    have he : s.selectedIndex - (s.networks.length : Int)
        = s.selectedIndex + (s.networks.length : Int) * (-1) := by ring
    rw [he, Int.add_mul_emod_self_left]
    exact Int.emod_eq_of_lt h0 h1

/-- C9 witness: with three concrete networks and the selection on index 0,
one Down press stays in range, and three Down (or three Up) presses return
the selection to index 0. -/
theorem select_nav_wraparound_witness :
    (0 ≤ ((pressDown [])^[1] cexSelState).selectedIndex ∧
      ((pressDown [])^[1] cexSelState).selectedIndex
        < (cexSelState.networks.length : Int) ∧
      ((pressDown [])^[1] cexSelState).uiState = .UI_SELECT_NETWORK) ∧
    ((pressDown [])^[3] cexSelState).selectedIndex = cexSelState.selectedIndex ∧
    ((pressUp [])^[3] cexSelState).selectedIndex = cexSelState.selectedIndex :=
  ⟨((select_nav_wraparound cexSelState [] (by decide) (by decide) (by decide)
      (by decide)).1 1).1,
   (select_nav_wraparound cexSelState [] (by decide) (by decide) (by decide)
      (by decide)).2.1,
   (select_nav_wraparound cexSelState [] (by decide) (by decide) (by decide)
      (by decide)).2.2⟩

lemma scanNetworks_password (results : List ScanResult) (s : SysState) :
    (scanNetworks results s).password = s.password := by
  unfold scanNetworks
  by_cases h : results.isEmpty
  · simp [h]
  · simp only [h, if_false, Bool.false_eq_true]
    split <;> rfl

lemma pollConnection_password (st : WlStatus) (s : SysState) :
    (pollConnection st s).password = s.password := by
  unfold pollConnection
  by_cases h1 : s.uiState = .UI_CONNECTING
  · simp only [h1, if_true, if_pos]
    split
    · rfl
    · split <;> rfl
  · simp [h1]

lemma updateDisplay_password (s : SysState) :
    (updateDisplayIfNeeded s).password = s.password := by
  unfold updateDisplayIfNeeded
  split <;> rfl

lemma handleSelect_clean (ks : KeysState) (s : SysState) (h : cleanPassword s) :
    cleanPassword (handleSelect ks s) := by
  unfold handleSelect
  dsimp only
  split
  · intro c hc
    simp at hc
  · exact fun c hc => h c hc

lemma del_enter_clean (ks : KeysState) (t : SysState) (h : cleanPassword t) :
    cleanPassword
      (if ks.enter
       then startConnection
          (if ks.del ∧ t.password.length > 0
           then { t with password := t.password.dropLast, needRedraw := true }
           else t)
       else
          (if ks.del ∧ t.password.length > 0
           then { t with password := t.password.dropLast, needRedraw := true }
           else t)) := by
  have hD : cleanPassword
      (if ks.del ∧ t.password.length > 0
       then { t with password := t.password.dropLast, needRedraw := true }
       else t) := by
    split
    · exact fun c hc => h c ((List.dropLast_sublist t.password).mem hc)
    · exact h
  split
  · exact fun c hc => hD c hc
  · exact hD

lemma handleEnterPassword_clean (ks : KeysState) (s : SysState)
    (hrs : wordHasRescan ks.word = false) (h : cleanPassword s) :
    cleanPassword (handleEnterPassword ks s) := by
  have hrw : ∀ c ∈ ks.word, c ≠ 'r' ∧ c ≠ 'R' := by
    intro c hc
    unfold wordHasRescan at hrs
    simp at hrs
    exact hrs c hc
  have htyped : ∀ c ∈ ks.word.filter (fun c => ¬ (c = 'q' ∨ c = 'Q')),
      cleanChar c := by
    intro c hc
    rw [List.mem_filter] at hc
    have hq' : ¬ (c = 'q' ∨ c = 'Q') := of_decide_eq_true hc.2
    rw [not_or] at hq'
    exact ⟨(hrw c hc.1).1, (hrw c hc.1).2, hq'.1, hq'.2⟩
  unfold handleEnterPassword
  by_cases hb : wordHasBack ks.word
  · rw [if_pos hb]
    intro c hc
    simp at hc
  · rw [if_neg hb]
    by_cases ho : s.selectedIsOpen
    · rw [if_pos ho]
      by_cases he : ks.enter
      · rw [if_pos he]
        exact fun c hc => h c hc
      · rw [if_neg he]
        exact h
    · rw [if_neg ho]
      dsimp only
      refine del_enter_clean ks _ ?_
      split
      · exact h
      · intro c hc
        rcases List.mem_append.mp hc with hc | hc
        · exact h c hc
        · exact htyped c hc

lemma handleKeyboard_clean (ch pr : Bool) (ks : KeysState)
    (results : List ScanResult) (s : SysState) (h : cleanPassword s) :
    cleanPassword (handleKeyboard ch pr ks results s) := by
  unfold handleKeyboard
  by_cases hch : ch
  case neg => simpa [hch] using h
  by_cases hpr : pr
  case neg => simpa [hch, hpr] using h
  by_cases hrs : wordHasRescan ks.word
  case pos =>
    have hscan : cleanPassword (scanNetworks results s) := by
      intro c hc
      rw [scanNetworks_password] at hc
      exact h c hc
    simpa [hch, hpr, hrs] using hscan
  have hrs' : wordHasRescan ks.word = false := by simpa using hrs
  simp only [hch, hpr, hrs, not_true, not_false_iff, if_true, if_false,
    Bool.false_eq_true, ite_false, ite_true]
  cases hU : s.uiState with
  | UI_NO_NETWORKS => exact h
  | UI_SELECT_NETWORK => exact handleSelect_clean ks s h
  | UI_ENTER_PASSWORD => exact handleEnterPassword_clean ks s hrs' h
  | UI_CONNECTING => exact h
  | UI_CONNECTED => exact h
  | UI_CONNECT_FAILED => exact h

lemma loopTick_clean (inp : TickInput) (s : SysState) (h : cleanPassword s) :
    cleanPassword (loopTick inp s) := by
  have h1 := handleKeyboard_clean inp.kbChanged inp.kbPressed inp.keys
    inp.scanResults s h
  intro c hc
  unfold loopTick at hc
  rw [updateDisplay_password, pollConnection_password] at hc
  exact h1 c hc

lemma runTicks_clean : ∀ (inputs : List TickInput) (s : SysState),
    cleanPassword s → cleanPassword (runTicks s inputs) := by
  intro inputs
  induction inputs with
  | nil => exact fun s h => h
  | cons i rest ih =>
    intro s h
    have hstep := loopTick_clean i s h
    have he : runTicks s (i :: rest) = runTicks (loopTick i s) rest := by
      unfold runTicks
      rw [List.foldl_cons]
    rw [he]
    exact ih (loopTick i s) hstep

lemma boot_clean (results : List ScanResult) : cleanPassword (boot results) := by
  intro c hc
  unfold boot at hc
  rw [scanNetworks_password] at hc
  simp [initState] at hc

/-- C3 witness: offering strength −5 to a concrete sorted set already
holding two entries of strength −5 places the new one after both of them
(insertion happens at `insertPos`, which evaluates past the ties). -/
theorem offer_tie_stability_witness :
    (cexTie.getD (insertPos (-5) cexTie) dfltNet).rssi < -5 ∧
    insertNetworkSorted cexTie ['T'] (-5) 0 =
      (cexTie.take (insertPos (-5) cexTie) ++
        (⟨['T'], -5, 0⟩ : NetworkInfo) ::
          cexTie.drop (insertPos (-5) cexTie)).take MAX_NETWORKS :=
  ⟨(offer_tie_stability cexTie ['T'] (-5) 0 (by decide)).2.1 (by decide),
   (offer_tie_stability cexTie ['T'] (-5) 0 (by decide)).2.2.2 (by decide)⟩

/-- C10: the rescan characters `'r'`/`'R'` are intercepted globally before
any per-state handling (the whole event becomes a rescan), and in password
entry the back characters `'q'`/`'Q'` are intercepted as KeyBack (clearing
the buffer); consequently, in every state reachable from boot through any
sequence of loop ticks, the password buffer never contains `'r'`, `'R'`,
`'q'` or `'Q'`. -/
theorem password_never_shortcut :
    (∀ (s : SysState) (ks : KeysState) (results : List ScanResult),
      wordHasRescan ks.word = true →
      handleKeyboard true true ks results s = scanNetworks results s) ∧
    (∀ (s : SysState) (ks : KeysState) (results : List ScanResult),
      s.uiState = .UI_ENTER_PASSWORD → wordHasRescan ks.word = false →
      wordHasBack ks.word = true →
      handleKeyboard true true ks results s
        = { s with
            uiState := .UI_SELECT_NETWORK
            password := []
            needRedraw := true }) ∧
    (∀ (results : List ScanResult) (inputs : List TickInput),
      ∀ c ∈ (runTicks (boot results) inputs).password, cleanChar c) := by
  refine ⟨fun s ks results h => handleKeyboard_rescan s ks results h, ?_, ?_⟩
  · intro s ks results hst hrs hb
    unfold handleKeyboard handleEnterPassword
    simp [hrs, hb, hst]
  · intro results inputs
    exact runTicks_clean inputs (boot results) (boot_clean results)

/-- C10 witness: an `'R'` keypress from the boot state performs the scan,
and a `'q'` keypress on a concrete password screen clears the buffer and
returns to the list. -/
theorem password_never_shortcut_witness :
    handleKeyboard true true ⟨['R'], false, false⟩ [] initState
        = scanNetworks [] initState ∧
    handleKeyboard true true ⟨['q'], false, false⟩ [] cexPwState
        = { cexPwState with
            uiState := .UI_SELECT_NETWORK
            password := []
            needRedraw := true } :=
  ⟨password_never_shortcut.1 initState ⟨['R'], false, false⟩ [] (by decide),
   password_never_shortcut.2.1 cexPwState ⟨['q'], false, false⟩ [] (by decide)
     (by decide) (by decide)⟩

end Cardputer
